import Mathlib

/-!
Verification of the ScanDrive scan/browse/mutate orchestration layer.

The definitions below are a shallow embedding of the TypeScript sources:
  * `src/src/App.tsx`               — the orchestrating component (navigation,
    selection, batch deletion, scan session handling);
  * `src/src/components/FolderPieChart.tsx` — size parsing/formatting and the
    pie-slice aggregator.

JavaScript numbers are modelled as `ℚ` (the spec and all claims treat the
arithmetic ideally, so exact rationals stand in for IEEE doubles), strings as
`String`, `Set<string>` as `Finset String`, and asynchronous calls as explicit
request/resolution steps over an `AppState` record together with a trace of
the effects (backend invocations) they issue.
-/

/-- `FileItem` from `src/src/types` (`src/unnamed/part_000`): one listing entry.
The `actions` field models the presentation-only `actions` property that
`App.tsx` splices onto each entry (`''` stands for the property being absent). -/
structure FileItem where
  id : String
  name : String
  size : String
  sizeBytes : ℚ
  type : String
  path : String
  actions : String := ""
  lastModified : Option String := none
deriving DecidableEq, Repr

/-! ## Size formatting (`formatBytes`, FolderPieChart.tsx lines 103–109) -/

/-- The character for a decimal digit `d < 10`. -/
def digitChar (d : ℕ) : Char := Char.ofNat (48 + d)

/-- Decimal digit expansion of a natural number, most significant digit first;
fuel-structured so that it reduces definitionally. -/
def natCharsAux : ℕ → ℕ → List Char
  | 0, _ => []
  | fuel + 1, n =>
    if n < 10 then [digitChar n]
    else natCharsAux fuel (n / 10) ++ [digitChar (n % 10)]

/-- Decimal digit characters of `n` (the digits JavaScript prints for the
integer `n`). -/
def natChars (n : ℕ) : List Char := natCharsAux (n + 1) n

/-- The decimal numeral JavaScript prints for the value `m / 100`: this models
`parseFloat(x.toFixed(2)).toString()` once `m = round(x * 100)` is known.
`parseFloat` drops the trailing zeros that `toFixed(2)` produced, so the
result has zero, one or two fractional digits. -/
def sizeNumeral (m : ℕ) : List Char :=
  if m % 100 = 0 then natChars (m / 100)
  else if m % 10 = 0 then natChars (m / 100) ++ '.' :: natChars (m % 100 / 10)
  else if m % 100 < 10 then natChars (m / 100) ++ '.' :: '0' :: natChars (m % 100)
  else natChars (m / 100) ++ '.' :: natChars (m % 100)

/-- The unit table `['B', 'KB', 'MB', 'GB', 'TB']` of `formatBytes`. -/
def unitsList : List String := ["B", "KB", "MB", "GB", "TB"]

/-- `sizes[i]` of `formatBytes`: a JavaScript out-of-range index yields
`undefined`, which prints as the string `undefined`. -/
def unitName (i : ℤ) : String :=
  if 0 ≤ i ∧ i < 5 then unitsList.getD i.toNat "undefined" else "undefined"

/-- `Math.floor(Math.log(bytes) / Math.log(1024))` of `formatBytes`. -/
def unitIndex (bytes : ℚ) : ℤ := Int.log 1024 bytes

/-- `round((bytes / 1024 ** i) * 100)` — the integer behind
`(bytes / Math.pow(k, i)).toFixed(2)` (`toFixed` rounds half away from zero
for the positive values that arise here). -/
def roundedHundredths (bytes : ℚ) : ℤ :=
  ⌊bytes / 1024 ^ unitIndex bytes * 100 + 1 / 2⌋

/-- `formatBytes` (FolderPieChart.tsx lines 103–109):
`parseFloat((bytes / Math.pow(k, i)).toFixed(2)) + ' ' + sizes[i]` with
`i = floor(log bytes / log 1024)`, and `'0 B'` for zero. -/
def formatBytes (bytes : ℚ) : String :=
  if bytes = 0 then "0 B"
  else String.mk (sizeNumeral (roundedHundredths bytes).toNat) ++ " " ++
    unitName (unitIndex bytes)

/-! ## Size parsing (`parseSizeToBytes`, FolderPieChart.tsx lines 35–51) -/

/-- Value of a digit string read left to right (what `parseFloat` computes on
a block of decimal digits). -/
def readNat (cs : List Char) : ℕ :=
  cs.foldl (fun a c => 10 * a + (c.toNat - 48)) 0

/-- JavaScript `parseFloat` restricted to the strings matched by `[\d.]+`
(digits and dots): the longest valid decimal-literal prefix is read; `none`
models the `NaN` result for a digit-less input such as `"."`. -/
def jsParseFloat (cs : List Char) : Option ℚ :=
  let ds := cs.takeWhile Char.isDigit
  match cs.drop ds.length with
  | c :: r2 =>
    if c = '.' then
      let fs := r2.takeWhile Char.isDigit
      if ds.isEmpty && fs.isEmpty then none
      else some ((readNat ds : ℚ) + (readNat fs : ℚ) / 10 ^ fs.length)
    else if ds.isEmpty then none else some ((readNat ds : ℚ))
  | [] => if ds.isEmpty then none else some ((readNat ds : ℚ))

/-- The anchored match `/^([\d.]+)\s*([KMGT]?B)$/i` of `parseSizeToBytes`:
a nonempty block of digits/dots, optional whitespace, then a unit token,
returned with the unit uppercased (the code's `match[2].toUpperCase()`).
The greedy `[\d.]+` never needs backtracking because neither whitespace nor
the unit letters are digits or dots. -/
def matchNumUnit (cs : List Char) : Option (List Char × String) :=
  let p := cs.takeWhile (fun c => c.isDigit || c == '.')
  if p.isEmpty then none
  else
    let u := String.mk (((cs.drop p.length).dropWhile Char.isWhitespace).map Char.toUpper)
    if u = "B" ∨ u = "KB" ∨ u = "MB" ∨ u = "GB" ∨ u = "TB" then some (p, u) else none

/-- The `multipliers[unit] || 1` table of `parseSizeToBytes`. -/
def multiplier (u : String) : ℚ :=
  if u = "B" then 1
  else if u = "KB" then 1024
  else if u = "MB" then 1024 * 1024
  else if u = "GB" then 1024 * 1024 * 1024
  else if u = "TB" then 1024 * 1024 * 1024 * 1024
  else 1

/-- `parseSizeToBytes` (FolderPieChart.tsx lines 35–51): `0` on a regex
non-match, otherwise `parseFloat(match[1]) * multipliers[unit]`.  The one
corner where the TypeScript value is `NaN` (a matched numeral with no digits,
e.g. `". B"`) is mapped to `0` here; no theorem below touches that corner. -/
def parseSizeToBytes (s : String) : ℚ :=
  match matchNumUnit s.data with
  | none => 0
  | some (p, u) => ((jsParseFloat p).getD 0) * multiplier u

/-! ## Pie-slice aggregation (`calculateSlices`, FolderPieChart.tsx lines 54–101) -/

/-- A listing entry paired with its parsed byte value — the shape produced by
`fileData.map(item => ({...item, bytes: parseSizeToBytes(item.size)}))`. -/
abbrev ChartItem := FileItem × ℚ

/-- One slice of the pie model (FolderPieChart.tsx lines 9–16). -/
structure PieSlice where
  name : String
  value : ℚ
  percentage : ℚ
  color : String
  startAngle : ℚ
  endAngle : ℚ
deriving DecidableEq, Repr

/-- The fixed ten-colour palette `COLORS` (FolderPieChart.tsx lines 18–29). -/
def COLORS : List String :=
  ["#0f62fe", "#4589ff", "#78a9ff", "#a6c8ff", "#d0e2ff",
   "#0043ce", "#002d9c", "#001d6c", "#001141", "#8ab4ff"]

/-- The ordering the comparator `(a, b) => b.bytes - a.bytes` sorts by:
`a` comes (weakly) before `b` when `a` has at least as many bytes. -/
def bytesDescRel (a b : ChartItem) : Prop := b.2 ≤ a.2

instance : DecidableRel bytesDescRel := fun a b =>
  inferInstanceAs (Decidable (b.2 ≤ a.2))

instance : IsTotal ChartItem bytesDescRel := ⟨fun a b => le_total b.2 a.2⟩

instance : IsTrans ChartItem bytesDescRel := ⟨fun _ _ _ h1 h2 => le_trans h2 h1⟩

/-- `itemsWithBytes.sort((a, b) => b.bytes - a.bytes)`: JavaScript `sort` is a
stable sort, modelled as stable insertion sort by descending byte value. -/
def sortByBytesDesc (l : List ChartItem) : List ChartItem :=
  List.insertionSort bytesDescRel l

/-- Pair every entry with its parsed byte count. -/
def withBytes (fd : List FileItem) : List ChartItem :=
  fd.map (fun it => (it, parseSizeToBytes it.size))

/-- `totalBytes = itemsWithBytes.reduce((sum, item) => sum + item.bytes, 0)`.
(The code sums the sorted list; sorting permutes, so the unsorted sum is the
same value, see `sortByBytesDesc_perm`.) -/
def totalBytesOf (fd : List FileItem) : ℚ :=
  ((withBytes fd).map (fun x => x.2)).sum

/-- The byte value grouped under `Others`: the sum over everything past the
top nine entries of the sorted listing. -/
def othersBytesOf (fd : List FileItem) : ℚ :=
  (((sortByBytesDesc (withBytes fd)).drop 9).map (fun x => x.2)).sum

/-- The synthetic grouped entry pushed by `calculateSlices` when more than
nine entries remain and their combined size is positive. -/
def othersEntry (k : ℕ) (b : ℚ) : ChartItem :=
  ({ id := "others", name := "Others (" ++ toString k ++ " items)",
     size := formatBytes b, sizeBytes := b, type := "group", path := "" }, b)

/-- `[...topItems]` plus the conditional `Others` push: the item sequence the
slice layout runs over. -/
def chartItems (fd : List FileItem) : List ChartItem :=
  let sorted := sortByBytesDesc (withBytes fd)
  let topItems := sorted.take 9
  let otherItems := sorted.drop 9
  let otherBytes := (otherItems.map (fun x => x.2)).sum
  if 0 < otherBytes then topItems ++ [othersEntry otherItems.length otherBytes]
  else topItems

/-- The `items.map((item, index) => ...)` layout loop: percentages, palette
colours cycled by position, and the running angle cursor started by the
caller at `-90`. -/
def slicesFrom (totalBytes : ℚ) : ℕ → ℚ → List ChartItem → List PieSlice
  | _, _, [] => []
  | index, currentAngle, item :: rest =>
    let percentage := item.2 / totalBytes * 100
    let angle := percentage / 100 * 360
    { name := item.1.name, value := item.2, percentage := percentage,
      color := COLORS.getD (index % COLORS.length) "",
      startAngle := currentAngle, endAngle := currentAngle + angle }
      :: slicesFrom totalBytes (index + 1) (currentAngle + angle) rest

/-- `calculateSlices` (FolderPieChart.tsx lines 54–101). -/
def calculateSlices (fd : List FileItem) : List PieSlice :=
  if fd.length = 0 then []
  else if totalBytesOf fd = 0 then []
  else slicesFrom (totalBytesOf fd) 0 (-90) (chartItems fd)

/-! ## App orchestration state (`App.tsx`) -/

/-- The kinds of scan-event subscriptions `handleScan` installs. -/
inductive LKind
  | progress
  | complete
deriving DecidableEq, Repr

/-- Payload of a `scan-progress` event (App.tsx line 309). -/
structure ProgressPayload where
  current_path : String
  files_scanned : ℕ
  progress : ℚ
deriving DecidableEq, Repr

/-- The mutable state owned by the `App` component: the `useState` cells that
matter to the claims, plus the set of live scan-event subscriptions.  Each
subscription is tagged with the scan session that installed it (sessions are
numbered by `nextSession`), so that the closures `unlistenProgress` /
`unlistenComplete` captured by a session's handlers can be modelled as
removing exactly that session's entries. -/
structure AppState where
  isScanning : Bool
  currentScanPath : String
  filesScanned : ℕ
  scanProgress : ℚ
  fileData : List FileItem
  selectedDrivePath : String
  currentPath : String
  isLoadingContents : Bool
  deleteModalOpen : Bool
  isDeleting : Bool
  deleteNotification : Option (Bool × String)
  selectedItems : Finset String
  filesToDelete : List FileItem
  listeners : List (ℕ × LKind)
  nextSession : ℕ
deriving DecidableEq

/-- The initial state of every `useState` cell. -/
def initState : AppState :=
  { isScanning := false, currentScanPath := "", filesScanned := 0,
    scanProgress := 0, fileData := [], selectedDrivePath := "",
    currentPath := "", isLoadingContents := false, deleteModalOpen := false,
    isDeleting := false, deleteNotification := none, selectedItems := ∅,
    filesToDelete := [], listeners := [], nextSession := 0 }

/-- Backend invocations and subscription operations, recorded as a trace. -/
inductive Effect
  | invokeGetContents (path : String)
  | invokeDelete (path : String)
  | invokeTrash (path : String)
  | invokeScanDrive (path : String)
  | listenProgress (session : ℕ)
  | listenComplete (session : ℕ)
  | unlisten (session : ℕ)
deriving DecidableEq, Repr

/-- `contents.map(item => ({...item, actions: 'delete'}))` (App.tsx 121–124). -/
def addActions (items : List FileItem) : List FileItem :=
  items.map (fun it => { it with actions := "delete" })

/-- The synchronous half of `loadDirectoryContents` (App.tsx 112–117): before
the `await`, the code sets `isLoadingContents` and — unconditionally —
`currentPath`, then issues `get_directory_contents`. -/
def loadStart (path : String) (s : AppState) : AppState × List Effect :=
  ({ s with isLoadingContents := true, currentPath := path },
   [Effect.invokeGetContents path])

/-- The resolution half of `loadDirectoryContents` (App.tsx 117–131): a
successful response installs the listing; a failure only logs; either way the
`finally` clears `isLoadingContents`.  The handler has no staleness guard, so
it applies to whatever state is current when the response arrives. -/
def loadResolve (result : Option (List FileItem)) (s : AppState) : AppState :=
  match result with
  | some contents => { s with fileData := addActions contents, isLoadingContents := false }
  | none => { s with isLoadingContents := false }

/-- `loadDirectoryContents` run to completion with no interleaving: issue the
request, then apply the response `listDir path` (`none` = the command threw). -/
def loadDirectoryContents (listDir : String → Option (List FileItem))
    (path : String) (s : AppState) : AppState × List Effect :=
  let r := loadStart path s
  (loadResolve (listDir path) r.1, r.2)

/-- `currentPath.split('/').slice(0, -1).join('/') || '/'` (App.tsx 136). -/
def parentOf (p : String) : String :=
  let q := String.intercalate "/" ((p.split (fun c => c == '/')).dropLast)
  if q = "" then "/" else q

/-- `navigateUp` (App.tsx 134–140): guard, load the parent, clear selection. -/
def navigateUp (listDir : String → Option (List FileItem)) (s : AppState) :
    AppState × List Effect :=
  if s.currentPath = "" ∨ s.currentPath = s.selectedDrivePath then (s, [])
  else
    let r := loadDirectoryContents listDir (parentOf s.currentPath) s
    ({ r.1 with selectedItems := ∅ }, r.2)

/-- Clicking a table cell of an entry (App.tsx 568–572): a `directory`-kind
entry loads its path; nothing else happens — in particular the selection is
not touched. -/
def clickEntry (listDir : String → Option (List FileItem)) (item : FileItem)
    (s : AppState) : AppState × List Effect :=
  if item.type = "directory" then loadDirectoryContents listDir item.path s
  else (s, [])

/-- `handleSelectItem` (App.tsx 142–152): toggle one id. -/
def handleSelectItem (id : String) (s : AppState) : AppState :=
  if id ∈ s.selectedItems then { s with selectedItems := s.selectedItems.erase id }
  else { s with selectedItems := insert id s.selectedItems }

/-- `handleSelectAll` (App.tsx 154–160). -/
def handleSelectAll (s : AppState) : AppState :=
  if s.selectedItems.card = s.fileData.length then { s with selectedItems := ∅ }
  else { s with selectedItems := (s.fileData.map (fun f => f.id)).toFinset }

/-- `handleDeleteSelected` (App.tsx 162–166): snapshot the selected entries
into the deletion batch and open the confirmation modal. -/
def handleDeleteSelected (s : AppState) : AppState :=
  { s with filesToDelete := s.fileData.filter (fun f => f.id ∈ s.selectedItems),
           deleteModalOpen := true }

/-- `handleDeleteFile` (App.tsx 168–170): single-entry batch. -/
def handleDeleteFile (item : FileItem) (s : AppState) : AppState :=
  { s with filesToDelete := [item], deleteModalOpen := true }

/-- `cancelDelete` (App.tsx 295–298). -/
def cancelDelete (s : AppState) : AppState :=
  { s with deleteModalOpen := false, filesToDelete := [] }

/-- The `for` loop shared by `confirmDelete` (App.tsx 180–190) and
`confirmMoveToTrash` (App.tsx 242–252): one primitive call per entry in
order; `ok i` tells whether the `i`-th call succeeds; a failure is counted
and the loop continues.  Returns (successCount, errorCount, trace). -/
def runDeletes (mk : String → Effect) (ok : ℕ → Bool) :
    List FileItem → ℕ → ℕ × ℕ × List Effect
  | [], _ => (0, 0, [])
  | item :: rest, i =>
    let r := runDeletes mk ok rest (i + 1)
    if ok i then (r.1 + 1, r.2.1, mk item.path :: r.2.2)
    else (r.1, r.2.1 + 1, mk item.path :: r.2.2)

/-- The tail shared by both confirmation handlers (App.tsx 192–230 and
254–292): notification, refresh of the current directory (JS string
truthiness: nonempty), clearing of the selection, and the `finally` block.
The outer `catch` is unreachable — every awaited call inside handles its own
errors — and the 5-second notification timeout is a UI timing detail outside
this model. -/
def finishBatch (succMsg : ℕ → String) (failMsg : ℕ → ℕ → String) (sc ec : ℕ)
    (listDir : String → Option (List FileItem)) (s : AppState) :
    AppState × List Effect :=
  let note := if ec = 0 then (true, succMsg sc) else (false, failMsg sc ec)
  let s1 := { s with deleteNotification := some note }
  let r2 :=
    if s1.currentPath = "" then
      if s1.selectedDrivePath = "" then (s1, [])
      else loadDirectoryContents listDir s1.selectedDrivePath s1
    else loadDirectoryContents listDir s1.currentPath s1
  let s3 := { r2.1 with selectedItems := ∅ }
  ({ s3 with isDeleting := false, deleteModalOpen := false,
             filesToDelete := [], selectedItems := ∅ }, r2.2)

/-- The success/failure notification texts of `confirmDelete` (App.tsx
193–203). -/
def deleteSuccMsg (sc : ℕ) : String :=
  "Successfully deleted " ++ toString sc ++ " item(s)"

/-- The partial-failure notification text of `confirmDelete`. -/
def deleteFailMsg (sc ec : ℕ) : String :=
  "Deleted " ++ toString sc ++ " item(s), failed to delete " ++ toString ec ++ " item(s)"

/-- The success notification text of `confirmMoveToTrash` (App.tsx 255–265). -/
def trashSuccMsg (sc : ℕ) : String :=
  "Successfully moved " ++ toString sc ++ " item(s) to trash"

/-- The partial-failure notification text of `confirmMoveToTrash`. -/
def trashFailMsg (sc ec : ℕ) : String :=
  "Moved " ++ toString sc ++ " item(s) to trash, failed to move " ++ toString ec ++ " item(s)"

/-- `confirmDelete` (App.tsx 171–231): early return on an empty batch, else
delete every batch entry sequentially via `delete_file_or_directory`, report
counts, refresh, clear the selection, and run the `finally` block. -/
def confirmDelete (ok : ℕ → Bool) (listDir : String → Option (List FileItem))
    (s : AppState) : AppState × List Effect :=
  if s.filesToDelete.length = 0 then (s, [])
  else
    let s1 := { s with isDeleting := true }
    let r := runDeletes Effect.invokeDelete ok s1.filesToDelete 0
    let r2 := finishBatch deleteSuccMsg deleteFailMsg r.1 r.2.1 listDir s1
    (r2.1, r.2.2 ++ r2.2)

/-- `confirmMoveToTrash` (App.tsx 233–293): identical orchestration with the
`move_to_trash` primitive and its wording. -/
def confirmMoveToTrash (ok : ℕ → Bool) (listDir : String → Option (List FileItem))
    (s : AppState) : AppState × List Effect :=
  if s.filesToDelete.length = 0 then (s, [])
  else
    let s1 := { s with isDeleting := true }
    let r := runDeletes Effect.invokeTrash ok s1.filesToDelete 0
    let r2 := finishBatch trashSuccMsg trashFailMsg r.1 r.2.1 listDir s1
    (r2.1, r.2.2 ++ r2.2)

/-- `handleScan` (App.tsx 300–344): reset the session counters, clear the
listing, subscribe a fresh pair of progress/completion listeners — without
detaching any listeners a previous session may still hold — then start the
background scan.  `accepted` is whether `invoke('scan_drive')` resolves; on
rejection the `catch` clears `isScanning` and unsubscribes the pair it just
installed. -/
def handleScan (accepted : Bool) (drivePath : String) (s : AppState) :
    AppState × List Effect :=
  let sid := s.nextSession
  let s1 := { s with isScanning := true, currentScanPath := drivePath,
                     scanProgress := 0, filesScanned := 0,
                     selectedDrivePath := drivePath, fileData := [],
                     listeners := s.listeners ++ [(sid, LKind.progress), (sid, LKind.complete)],
                     nextSession := sid + 1 }
  if accepted then
    (s1, [Effect.listenProgress sid, Effect.listenComplete sid, Effect.invokeScanDrive drivePath])
  else
    ({ s1 with isScanning := false,
               listeners := s1.listeners.filter (fun l => l.1 ≠ sid) },
     [Effect.listenProgress sid, Effect.listenComplete sid,
      Effect.invokeScanDrive drivePath, Effect.unlisten sid])

/-- The `scan-progress` handler body (App.tsx 309–313): overwrite the probe
path, the files-scanned counter and the ratio with the payload. -/
def onProgress (p : ProgressPayload) (s : AppState) : AppState :=
  { s with currentScanPath := p.current_path, filesScanned := p.files_scanned,
           scanProgress := p.progress }

/-- Delivery of a `scan-progress` event: Tauri events are global, so every
live `scan-progress` subscription — whichever session installed it — runs
the handler body against the shared state. -/
def dispatchProgress (p : ProgressPayload) (s : AppState) : AppState :=
  (s.listeners.filter (fun l => l.2 = LKind.progress)).foldl
    (fun st _ => onProgress p st) s

/-- The `scan-complete` handler body for the session `sid` that installed it
(App.tsx 316–332): stop the progress display, install the scan results as the
listing, and tear down that session's two subscriptions. -/
def onComplete (sid : ℕ) (entries : List FileItem) (s : AppState) :
    AppState × List Effect :=
  ({ s with isScanning := false, scanProgress := 100,
            fileData := addActions entries,
            listeners := s.listeners.filter (fun l => l.1 ≠ sid) },
   [Effect.unlisten sid])

/-! ## Root-level deletion affordances (App.tsx 437–449 and 533–557) -/

/-- `const isRootFolder = currentPath === selectedDrivePath` (App.tsx 535). -/
def isRootFolder (s : AppState) : Bool := s.currentPath == s.selectedDrivePath

/-- The per-row delete button renders iff `!isRootFolder` (App.tsx 539). -/
def rowDeleteVisible (s : AppState) : Bool := !isRootFolder s

/-- The `Delete N selected item(s)` button renders iff the selection is
nonempty (App.tsx 437) — with no root check. -/
def batchDeleteVisible (s : AppState) : Bool := 0 < s.selectedItems.card

/-! ## Concrete fixtures used by the claim theorems -/

/-- A small file entry under `/a`. -/
def itemA : FileItem :=
  { id := "a1", name := "alpha.bin", size := "10 B", sizeBytes := 10,
    type := "file", path := "/a/alpha.bin" }

/-- A small file entry under `/b`. -/
def itemB : FileItem :=
  { id := "b1", name := "beta.bin", size := "20 B", sizeBytes := 20,
    type := "file", path := "/b/beta.bin" }

/-- A directory entry shown in a listing. -/
def itemDir : FileItem :=
  { id := "d1", name := "docs", size := "30 B", sizeBytes := 30,
    type := "directory", path := "/root/x/docs" }

/-- A file entry with id `f1`. -/
def itemFile : FileItem :=
  { id := "f1", name := "file.txt", size := "5 B", sizeBytes := 5,
    type := "file", path := "/root/x/file.txt" }

/-- The singleton selection holding id `f1`. -/
def selF1 : Finset String := {"f1"}

/-- A state browsing `/root/x` with `f1` selected. -/
def c2State : AppState :=
  { initState with
    fileData := [itemDir, itemFile], selectedItems := selF1,
    currentPath := "/root/x", selectedDrivePath := "/root" }

/-- A state whose current path is the scanned root, with a nonempty
selection. -/
def c8State : AppState :=
  { initState with
    currentPath := "/drive", selectedDrivePath := "/drive",
    fileData := [itemFile], selectedItems := selF1 }

/-- A state that had loaded `/old`. -/
def c7State : AppState := { initState with currentPath := "/old", fileData := [itemA] }

/-- C1: `loadDirectoryContents` has no last-request-wins guard.  Issue
`load("/a")`, then `load("/b")`; let `/b`'s response arrive first and `/a`'s
second.  The final state has `currentPath = "/b"` (set synchronously at issue
time) but the listing holds `/a`'s entries — the older in-flight response
overwrote the newer one, contradicting the claim. -/
theorem loadRace_staleResponseWins :
    (loadResolve (some [itemA]) (loadResolve (some [itemB])
        (loadStart "/b" (loadStart "/a" initState).1).1)).currentPath = "/b" ∧
    (loadResolve (some [itemA]) (loadResolve (some [itemB])
        (loadStart "/b" (loadStart "/a" initState).1).1)).fileData = addActions [itemA] ∧
    addActions [itemA] ≠ addActions [itemB] := by
  decide

/-- C2: replacing the listing does not always clear the selection: clicking
into a directory (`clickEntry`) keeps the selection while replacing the
listing, and starting a new scan (`handleScan`) keeps the selection while
clearing the listing. -/
theorem selectionSurvivesListingReplacement :
    ((clickEntry (fun _ => some [itemA]) itemDir c2State).1).selectedItems = {"f1"} ∧
    ((clickEntry (fun _ => some [itemA]) itemDir c2State).1).fileData = addActions [itemA] ∧
    ((handleScan true "/root" c2State).1).selectedItems = {"f1"} ∧
    ((handleScan true "/root" c2State).1).fileData = [] ∧
    ({"f1"} : Finset String) ≠ (∅ : Finset String) := by
  decide

/-- C4: starting a second scan does not detach the first session's
subscriptions: after `handleScan "/a"` then `handleScan "/b"`, session 0's
listeners are still attached, and a late `scan-progress` event from the
abandoned `/a` scan overwrites the new session's probe path and counter. -/
theorem staleScanEventsCorruptNewSession :
    ((handleScan true "/b" (handleScan true "/a" initState).1).1).listeners =
      [(0, LKind.progress), (0, LKind.complete), (1, LKind.progress), (1, LKind.complete)] ∧
    ((handleScan true "/b" (handleScan true "/a" initState).1).1).currentScanPath = "/b" ∧
    ((handleScan true "/b" (handleScan true "/a" initState).1).1).filesScanned = 0 ∧
    (dispatchProgress { current_path := "/a/sub", files_scanned := 500, progress := 40 }
        ((handleScan true "/b" (handleScan true "/a" initState).1).1)).filesScanned = 500 ∧
    (dispatchProgress { current_path := "/a/sub", files_scanned := 500, progress := 40 }
        ((handleScan true "/b" (handleScan true "/a" initState).1).1)).currentScanPath = "/a/sub" := by
  decide

/-- C7 counterexample: a failing `load("/x")` from a state that was showing
`/old` keeps the old listing but still moves `currentPath` to `/x` (the code
sets it before awaiting), so the pre-call navigation state is not retained on
failure as the claim states. -/
theorem loadFailureMovesCurrentPath :
    (loadDirectoryContents (fun _ => none) "/x" c7State).1.fileData = [itemA] ∧
    (loadDirectoryContents (fun _ => none) "/x" c7State).1.currentPath = "/x" ∧
    c7State.currentPath = "/old" ∧ ("/x" : String) ≠ "/old" := by
  decide

/-- C7 amended: `load(path)` always ends with `isLoading` cleared and
`currentPath = path` (updated at issue time, success or not); exactly one
listing request is issued; on failure the state is unchanged except for
`currentPath`/`isLoading` — in particular the previous listing is intact —
and on success only the listing is additionally replaced. -/
theorem loadDirectoryContents_amended (listDir : String → Option (List FileItem))
    (path : String) (s : AppState) :
    (loadDirectoryContents listDir path s).1.currentPath = path ∧
    (loadDirectoryContents listDir path s).1.isLoadingContents = false ∧
    (loadDirectoryContents listDir path s).2 = [Effect.invokeGetContents path] ∧
    (listDir path = none →
      (loadDirectoryContents listDir path s).1 =
        { s with currentPath := path, isLoadingContents := false }) ∧
    (∀ c, listDir path = some c →
      (loadDirectoryContents listDir path s).1 =
        { s with currentPath := path, isLoadingContents := false,
                 fileData := addActions c }) := by
  cases h : listDir path <;>
    simp [loadDirectoryContents, loadStart, loadResolve, h]

/-- C7 witness: the amended theorem applied to a concrete successful load and
a concrete failing load. -/
theorem loadDirectoryContents_amended_witness :
    (loadDirectoryContents (fun _ => some [itemB]) "/b" initState).1.fileData =
      addActions [itemB] ∧
    (loadDirectoryContents (fun _ => none) "/x" c7State).1.fileData = [itemA] := by
  have h1 := loadDirectoryContents_amended (fun _ => some [itemB]) "/b" initState
  have h2 := loadDirectoryContents_amended (fun _ => none) "/x" c7State
  constructor
  · rw [h1.2.2.2.2 [itemB] rfl]
  · rw [h2.2.2.2.1 rfl]; rfl

/-- C8 counterexample: with the current path equal to the scanned root and a
nonempty selection, the batch-delete affordance is visible and fully
functional (the confirmation modal opens over the selected entries), so not
every deletion affordance is suppressed at the root. -/
theorem batchDeleteAvailableAtRoot :
    isRootFolder c8State = true ∧ batchDeleteVisible c8State = true ∧
    (handleDeleteSelected c8State).deleteModalOpen = true ∧
    (handleDeleteSelected c8State).filesToDelete = [itemFile] := by
  decide

/-- C8 amended: at the root only the per-row delete control is suppressed;
the selection-based batch delete stays available whenever the selection is
nonempty. -/
theorem rootProtection_amended (s : AppState)
    (h : s.currentPath = s.selectedDrivePath) :
    rowDeleteVisible s = false ∧
    (0 < s.selectedItems.card → batchDeleteVisible s = true ∧
      (handleDeleteSelected s).deleteModalOpen = true) := by
  refine ⟨by simp [rowDeleteVisible, isRootFolder, h], fun hc => ⟨?_, rfl⟩⟩
  simpa [batchDeleteVisible] using hc

/-- C8 witness: the amended theorem applied at the concrete root state. -/
theorem rootProtection_amended_witness :
    rowDeleteVisible c8State = false ∧ batchDeleteVisible c8State = true := by
  have h := rootProtection_amended c8State rfl
  exact ⟨h.1, (h.2 (by decide)).1⟩

/-- C10: a confirmed deletion (either mode) over an empty batch returns
before doing anything: no primitive call, no notification, no refresh, and
the state — listing, current path, selection, modal — is exactly unchanged. -/
theorem confirmEmptyBatch_noop (ok : ℕ → Bool)
    (listDir : String → Option (List FileItem)) (s : AppState)
    (h : s.filesToDelete = []) :
    confirmDelete ok listDir s = (s, []) ∧
    confirmMoveToTrash ok listDir s = (s, []) := by
  simp [confirmDelete, confirmMoveToTrash, h]

/-- C10 witness: the no-op theorem applied at a concrete state. -/
theorem confirmEmptyBatch_noop_witness :
    confirmDelete (fun _ => true) (fun _ => none) c2State = (c2State, []) ∧
    confirmMoveToTrash (fun _ => true) (fun _ => none) c2State = (c2State, []) :=
  confirmEmptyBatch_noop (fun _ => true) (fun _ => none) c2State rfl

/-! ## C3: batch deletion accounting -/

/-- The delete loop issues exactly one primitive call per batch entry, in
batch order. -/
theorem runDeletes_trace (mk : String → Effect) (ok : ℕ → Bool) :
    ∀ (items : List FileItem) (i : ℕ),
      (runDeletes mk ok items i).2.2 = items.map (fun it => mk it.path)
  | [], _ => rfl
  | item :: rest, i => by
    cases h : ok i <;>
      simp [runDeletes, h, runDeletes_trace mk ok rest (i + 1)]

/-- The two counters of the delete loop tally exactly the per-entry outcomes:
starting at call index `i`, the success counter counts the indices whose call
succeeds and the error counter those whose call fails. -/
theorem runDeletes_count (mk : String → Effect) (ok : ℕ → Bool) :
    ∀ (items : List FileItem) (i : ℕ),
      (runDeletes mk ok items i).1 =
        ((List.range items.length).filter (fun j => ok (j + i))).length ∧
      (runDeletes mk ok items i).2.1 =
        ((List.range items.length).filter (fun j => !ok (j + i))).length
  | [], i => by simp [runDeletes]
  | item :: rest, i => by
    have ih := runDeletes_count mk ok rest (i + 1)
    have hp : ∀ (q : ℕ → Bool),
        ((List.range rest.length).filter (fun j => q (j + 1 + i))).length =
        ((List.range rest.length).filter (fun j => q (j + (i + 1)))).length := by
      intro q
      congr 2
      funext j
      congr 1
      omega
    cases h : ok i <;>
      simp [runDeletes, h, ih.1, ih.2, List.range_succ_eq_map, List.filter_cons,
        List.filter_map, Function.comp_def, Nat.succ_eq_add_one, hp] <;>
      exact (hp (fun x => !ok x)).symm

/-- Splitting a list by a predicate preserves its length. -/
theorem length_filter_both {α : Type} (p : α → Bool) :
    ∀ l : List α, (l.filter p).length + (l.filter (fun a => !p a)).length = l.length
  | [] => rfl
  | a :: l => by
    cases h : p a <;> simp [List.filter_cons, h, ← length_filter_both p l] <;> omega

/-- C3: executing a nonempty deletion batch in either mode calls the
corresponding primitive once per entry in order and then refreshes via
exactly one `get_directory_contents (currentPath)` call; the success and
error counters match the per-entry outcomes and add up to the batch size;
the reported notification carries exactly those counts; and the selection is
cleared afterwards. -/
theorem confirmBatch_spec (ok : ℕ → Bool)
    (listDir : String → Option (List FileItem)) (s : AppState)
    (hne : s.filesToDelete ≠ []) (hcp : s.currentPath ≠ "") :
    (confirmDelete ok listDir s).2 =
      s.filesToDelete.map (fun it => Effect.invokeDelete it.path) ++
        [Effect.invokeGetContents s.currentPath] ∧
    (confirmMoveToTrash ok listDir s).2 =
      s.filesToDelete.map (fun it => Effect.invokeTrash it.path) ++
        [Effect.invokeGetContents s.currentPath] ∧
    (runDeletes Effect.invokeDelete ok s.filesToDelete 0).1 =
      ((List.range s.filesToDelete.length).filter (fun j => ok j)).length ∧
    (runDeletes Effect.invokeDelete ok s.filesToDelete 0).2.1 =
      ((List.range s.filesToDelete.length).filter (fun j => !ok j)).length ∧
    (runDeletes Effect.invokeDelete ok s.filesToDelete 0).1 +
      (runDeletes Effect.invokeDelete ok s.filesToDelete 0).2.1 =
      s.filesToDelete.length ∧
    (confirmDelete ok listDir s).1.deleteNotification =
      some (if (runDeletes Effect.invokeDelete ok s.filesToDelete 0).2.1 = 0 then
          (true, deleteSuccMsg (runDeletes Effect.invokeDelete ok s.filesToDelete 0).1)
        else
          (false, deleteFailMsg (runDeletes Effect.invokeDelete ok s.filesToDelete 0).1
            (runDeletes Effect.invokeDelete ok s.filesToDelete 0).2.1)) ∧
    (confirmMoveToTrash ok listDir s).1.deleteNotification =
      some (if (runDeletes Effect.invokeTrash ok s.filesToDelete 0).2.1 = 0 then
          (true, trashSuccMsg (runDeletes Effect.invokeTrash ok s.filesToDelete 0).1)
        else
          (false, trashFailMsg (runDeletes Effect.invokeTrash ok s.filesToDelete 0).1
            (runDeletes Effect.invokeTrash ok s.filesToDelete 0).2.1)) ∧
    (confirmDelete ok listDir s).1.selectedItems = ∅ ∧
    (confirmMoveToTrash ok listDir s).1.selectedItems = ∅ := by
  have hlen : ¬s.filesToDelete.length = 0 := by
    simpa [List.length_eq_zero] using hne
  have hc := runDeletes_count Effect.invokeDelete ok s.filesToDelete 0
  refine ⟨?_, ?_, hc.1, hc.2, ?_, ?_, ?_, ?_, ?_⟩
  · cases h : listDir s.currentPath <;>
      simp [confirmDelete, finishBatch, hlen, hcp, h, runDeletes_trace,
        loadDirectoryContents, loadStart, loadResolve]
  · cases h : listDir s.currentPath <;>
      simp [confirmMoveToTrash, finishBatch, hlen, hcp, h, runDeletes_trace,
        loadDirectoryContents, loadStart, loadResolve]
  · rw [hc.1, hc.2]
    simpa using length_filter_both (fun j => ok j) (List.range s.filesToDelete.length)
  · cases h : listDir s.currentPath <;>
      simp [confirmDelete, finishBatch, hlen, hcp, h,
        loadDirectoryContents, loadStart, loadResolve]
  · cases h : listDir s.currentPath <;>
      simp [confirmMoveToTrash, finishBatch, hlen, hcp, h,
        loadDirectoryContents, loadStart, loadResolve]
  · cases h : listDir s.currentPath <;>
      simp [confirmDelete, finishBatch, hlen, hcp, h,
        loadDirectoryContents, loadStart, loadResolve]
  · cases h : listDir s.currentPath <;>
      simp [confirmMoveToTrash, finishBatch, hlen, hcp, h,
        loadDirectoryContents, loadStart, loadResolve]

/-- The three-entry batch of the spec's batch-delete test. -/
def batch3State : AppState := { c2State with filesToDelete := [itemA, itemB, itemFile] }

/-- Per-call outcomes where only the second delete fails. -/
def okSnd : ℕ → Bool := fun i => i != 1

/-- C3 witness: a three-entry batch whose second delete fails reports
success 2 / failure 1, refreshes the directory exactly once after the whole
batch, and clears the selection. -/
theorem confirmBatch_spec_witness :
    (confirmDelete okSnd (fun _ => some [itemDir]) batch3State).2 =
      [Effect.invokeDelete "/a/alpha.bin", Effect.invokeDelete "/b/beta.bin",
       Effect.invokeDelete "/root/x/file.txt", Effect.invokeGetContents "/root/x"] ∧
    (runDeletes Effect.invokeDelete okSnd batch3State.filesToDelete 0).1 = 2 ∧
    (runDeletes Effect.invokeDelete okSnd batch3State.filesToDelete 0).2.1 = 1 ∧
    (runDeletes Effect.invokeDelete okSnd batch3State.filesToDelete 0).1 +
      (runDeletes Effect.invokeDelete okSnd batch3State.filesToDelete 0).2.1 = 3 ∧
    (confirmDelete okSnd (fun _ => some [itemDir]) batch3State).1.deleteNotification =
      some (false, "Deleted 2 item(s), failed to delete 1 item(s)") ∧
    (confirmDelete okSnd (fun _ => some [itemDir]) batch3State).1.selectedItems = ∅ := by
  have h := confirmBatch_spec okSnd (fun _ => some [itemDir]) batch3State
    (by decide) (by decide)
  exact ⟨h.1.trans (by decide), h.2.2.1.trans (by decide), h.2.2.2.1.trans (by decide),
    by rw [h.2.2.1, h.2.2.2.1]; decide,
    h.2.2.2.2.2.1.trans (by decide), h.2.2.2.2.2.2.2.1⟩

/-! ## C5: aggregator lemmas -/

/-- The layout loop produces one slice per item. -/
theorem slicesFrom_length (t : ℚ) :
    ∀ (i : ℕ) (a : ℚ) (l : List ChartItem), (slicesFrom t i a l).length = l.length
  | _, _, [] => rfl
  | i, a, _ :: xs => by
    simp [slicesFrom, slicesFrom_length t (i + 1) _ xs]

/-- Slice values are the item byte values, in order. -/
theorem slicesFrom_map_value (t : ℚ) :
    ∀ (i : ℕ) (a : ℚ) (l : List ChartItem),
      (slicesFrom t i a l).map PieSlice.value = l.map (fun x => x.2)
  | _, _, [] => rfl
  | i, a, _ :: xs => by
    simp [slicesFrom, slicesFrom_map_value t (i + 1) _ xs]

/-- Slice names are the item names, in order. -/
theorem slicesFrom_map_name (t : ℚ) :
    ∀ (i : ℕ) (a : ℚ) (l : List ChartItem),
      (slicesFrom t i a l).map PieSlice.name = l.map (fun x => x.1.name)
  | _, _, [] => rfl
  | i, a, _ :: xs => by
    simp [slicesFrom, slicesFrom_map_name t (i + 1) _ xs]

/-- Slice colours cycle the palette by position, offset by the starting
index. -/
theorem slicesFrom_map_color (t : ℚ) :
    ∀ (i : ℕ) (a : ℚ) (l : List ChartItem),
      (slicesFrom t i a l).map PieSlice.color =
        (List.range l.length).map (fun j => COLORS.getD ((i + j) % COLORS.length) "")
  | _, _, [] => rfl
  | i, a, x :: xs => by
    have ih := slicesFrom_map_color t (i + 1) (a + x.2 / t * 100 / 100 * 360) xs
    simp only [slicesFrom, List.map_cons, List.length_cons, List.range_succ_eq_map,
      List.map_map, ih]
    refine congrArg₂ _ (by norm_num) (List.map_congr_left ?_)
    intro j _
    simp only [Function.comp_def]
    congr 2
    omega

/-- Each slice's percentage and angular span come from its value: the
percentage is `value / total × 100` and the span is `percentage / 100 × 360`
degrees. -/
theorem slicesFrom_mem (t : ℚ) :
    ∀ (i : ℕ) (a : ℚ) (l : List ChartItem),
      ∀ sl ∈ slicesFrom t i a l,
        sl.percentage = sl.value / t * 100 ∧
        sl.endAngle - sl.startAngle = sl.percentage / 100 * 360
  | _, _, [] => by simp [slicesFrom]
  | i, a, x :: xs => by
    intro sl hsl
    rw [slicesFrom] at hsl
    rcases List.mem_cons.mp hsl with h | h
    · subst h
      constructor
      · rfl
      · ring
    · exact slicesFrom_mem t (i + 1) _ xs sl h

/-- Slices are laid out consecutively: each slice starts where the previous
one ended. -/
theorem slicesFrom_chain (t : ℚ) :
    ∀ (i : ℕ) (a : ℚ) (l : List ChartItem),
      List.Chain' (fun x y => y.startAngle = x.endAngle) (slicesFrom t i a l)
  | _, _, [] => List.chain'_nil
  | _, _, [_] => by simp [slicesFrom]
  | i, a, x :: y :: xs => by
    rw [slicesFrom, slicesFrom]
    refine List.Chain'.cons rfl ?_
    have := slicesFrom_chain t (i + 1) (a + x.2 / t * 100 / 100 * 360) (y :: xs)
    rwa [slicesFrom] at this

/-- The first slice starts at the initial angle cursor. -/
theorem slicesFrom_start (t : ℚ) (i : ℕ) (a : ℚ) (x : ChartItem)
    (xs : List ChartItem) :
    ((slicesFrom t i a (x :: xs)).map PieSlice.startAngle).head? = some a := by
  simp [slicesFrom]

/-- The angular spans sum to `(sum of item bytes) / total × 360`. -/
theorem slicesFrom_span_sum (t : ℚ) :
    ∀ (i : ℕ) (a : ℚ) (l : List ChartItem),
      ((slicesFrom t i a l).map (fun sl => sl.endAngle - sl.startAngle)).sum =
        (l.map (fun x => x.2)).sum / t * 360
  | _, _, [] => by simp [slicesFrom]
  | i, a, x :: xs => by
    simp only [slicesFrom, List.map_cons, List.sum_cons,
      slicesFrom_span_sum t (i + 1) _ xs, List.map_cons, List.sum_cons]
    rw [add_div, add_mul]
    ring

/-- `parseFloat` on a digit/dot block is nonnegative when it is a number. -/
theorem jsParseFloat_nonneg (cs : List Char) : 0 ≤ (jsParseFloat cs).getD 0 := by
  rw [jsParseFloat]
  split
  · split
    · dsimp only
      split
      · simp
      · simp only [Option.getD_some]
        positivity
    · split
      · simp
      · simp only [Option.getD_some]
        positivity
  · split
    · simp
    · simp only [Option.getD_some]
      positivity

/-- Every unit multiplier is positive. -/
theorem multiplier_pos (u : String) : 0 < multiplier u := by
  rw [multiplier]
  repeat' split <;> norm_num

/-- Parsed sizes are never negative: a non-match contributes `0` and a match
is a nonnegative magnitude times a positive multiplier. -/
theorem parseSizeToBytes_nonneg (s : String) : 0 ≤ parseSizeToBytes s := by
  rw [parseSizeToBytes]
  split
  · exact le_rfl
  · exact mul_nonneg (jsParseFloat_nonneg _) (multiplier_pos _).le

/-- Sorting does not change which items occur: the sorted listing is a
permutation of the parsed listing. -/
theorem sortByBytesDesc_perm (l : List ChartItem) :
    List.Perm (sortByBytesDesc l) l :=
  List.perm_insertionSort bytesDescRel l

/-- The sorted listing is descending by byte value. -/
theorem sortByBytesDesc_sorted (l : List ChartItem) :
    List.Pairwise bytesDescRel (sortByBytesDesc l) :=
  List.sorted_insertionSort bytesDescRel l

/-- The sorted listing has one item per entry. -/
theorem sortByBytesDesc_length (fd : List FileItem) :
    (sortByBytesDesc (withBytes fd)).length = fd.length := by
  rw [(sortByBytesDesc_perm (withBytes fd)).length_eq, withBytes, List.length_map]

/-- Every byte value occurring in the sorted parsed listing is nonnegative. -/
theorem sorted_bytes_nonneg (fd : List FileItem) :
    ∀ x ∈ sortByBytesDesc (withBytes fd), 0 ≤ x.2 := by
  intro x hx
  have hx2 := (sortByBytesDesc_perm (withBytes fd)).mem_iff.mp hx
  obtain ⟨it, -, rfl⟩ := List.mem_map.mp hx2
  exact parseSizeToBytes_nonneg it.size

/-- The byte values of the chart items sum to the grand total: either the
`Others` entry restores exactly the dropped tail's sum, or the dropped tail
sums to zero. -/
theorem chartItems_sum (fd : List FileItem) :
    ((chartItems fd).map (fun x => x.2)).sum = totalBytesOf fd := by
  have hperm := (sortByBytesDesc_perm (withBytes fd)).map (fun x => x.2)
  have hsum : ((sortByBytesDesc (withBytes fd)).map (fun x => x.2)).sum =
      totalBytesOf fd := hperm.sum_eq
  have hsplit : ((sortByBytesDesc (withBytes fd)).map (fun x => x.2)).sum =
      (((sortByBytesDesc (withBytes fd)).take 9).map (fun x => x.2)).sum +
      (((sortByBytesDesc (withBytes fd)).drop 9).map (fun x => x.2)).sum := by
    rw [← List.sum_append, ← List.map_append, List.take_append_drop]
  rw [chartItems]
  split
  · rw [List.map_append, List.sum_append, ← hsum, hsplit]
    simp [othersEntry]
  · next hneg =>
    have hzero : (((sortByBytesDesc (withBytes fd)).drop 9).map (fun x => x.2)).sum = 0 := by
      refine le_antisymm (not_lt.mp hneg) (List.sum_nonneg ?_)
      intro q hq
      obtain ⟨y, hy, rfl⟩ := List.mem_map.mp hq
      exact sorted_bytes_nonneg fd y (List.mem_of_mem_drop hy)
    rw [← hsum, hsplit, hzero, add_zero]

/-- A nonempty listing yields a nonempty chart-item sequence. -/
theorem chartItems_ne_nil (fd : List FileItem) (h : fd ≠ []) :
    chartItems fd ≠ [] := by
  have hlen : 0 < (sortByBytesDesc (withBytes fd)).length := by
    rw [sortByBytesDesc_length]
    exact List.length_pos.mpr h
  have htake : ((sortByBytesDesc (withBytes fd)).take 9) ≠ [] := by
    simp only [ne_eq, ← List.length_eq_zero, List.length_take]
    omega
  rw [chartItems]
  split
  · simp
  · exact htake

/-- At most the top nine entries plus one grouped entry are charted. -/
theorem chartItems_length_le (fd : List FileItem) :
    (chartItems fd).length ≤ 10 := by
  have htake : ((sortByBytesDesc (withBytes fd)).take 9).length ≤ 9 := by
    simp only [List.length_take]
    omega
  rw [chartItems]
  split
  · simp only [List.length_append, List.length_cons, List.length_nil]
    omega
  · omega

/-- With more than nine entries and a positive remainder, the chart items are
exactly the nine largest followed by one `Others` entry that carries the
dropped count and the dropped sum. -/
theorem chartItems_of_many (fd : List FileItem)
    (hob : 0 < othersBytesOf fd) :
    chartItems fd = (sortByBytesDesc (withBytes fd)).take 9 ++
      [othersEntry (fd.length - 9) (othersBytesOf fd)] := by
  rw [chartItems]
  split
  · next hpos =>
    have hl : ((sortByBytesDesc (withBytes fd)).drop 9).length = fd.length - 9 := by
      rw [List.length_drop, sortByBytesDesc_length]
    rw [hl]
    rfl
  · next hneg => exact absurd hob hneg

/-- With a zero remainder no `Others` entry is appended: the chart items are
just the (at most nine) leading entries. -/
theorem chartItems_of_zero_others (fd : List FileItem)
    (hob : ¬0 < othersBytesOf fd) :
    chartItems fd = (sortByBytesDesc (withBytes fd)).take 9 := by
  rw [chartItems]
  split
  · next hpos => exact absurd hpos hob
  · rfl

/-- C5: the aggregator parses each entry's formatted size, emits nothing when
the total is zero, otherwise charts the entries sorted descending by byte
value with at most the top nine kept verbatim plus one `Others (k items)`
entry (appended only when the dropped tail has positive size, and carrying
exactly its sum), colours slices by cycling the ten-colour palette by
position, sets each percentage to `value/total × 100`, and lays the slices
out consecutively from −90° with spans `percentage/100 × 360°` summing to
exactly 360. -/
theorem calculateSlices_spec (fd : List FileItem) (hfd : fd ≠ []) :
    (totalBytesOf fd = 0 → calculateSlices fd = []) ∧
    (totalBytesOf fd ≠ 0 →
      ((calculateSlices fd).map PieSlice.startAngle).head? = some (-90) ∧
      ((calculateSlices fd).map (fun sl => sl.endAngle - sl.startAngle)).sum = 360 ∧
      List.Chain' (fun x y => y.startAngle = x.endAngle) (calculateSlices fd) ∧
      (∀ sl ∈ calculateSlices fd,
        sl.percentage = sl.value / totalBytesOf fd * 100 ∧
        sl.endAngle - sl.startAngle = sl.percentage / 100 * 360) ∧
      (calculateSlices fd).map PieSlice.color =
        (List.range (calculateSlices fd).length).map
          (fun j => COLORS.getD (j % COLORS.length) "") ∧
      (calculateSlices fd).length ≤ 10 ∧
      ((calculateSlices fd).map PieSlice.value).sum = totalBytesOf fd ∧
      List.Chain' (fun a b => b ≤ a)
        (((calculateSlices fd).map PieSlice.value).take 9) ∧
      (9 < fd.length → 0 < othersBytesOf fd →
        (calculateSlices fd).length = 10 ∧
        ((calculateSlices fd).map PieSlice.name)[9]? =
          some ("Others (" ++ toString (fd.length - 9) ++ " items)") ∧
        ((calculateSlices fd).map PieSlice.value)[9]? = some (othersBytesOf fd)) ∧
      (¬0 < othersBytesOf fd →
        (calculateSlices fd).length = min 9 fd.length)) := by
  constructor
  · intro h0
    simp [calculateSlices, h0]
  · intro ht
    have hlen0 : ¬fd.length = 0 := by simpa [List.length_eq_zero] using hfd
    have hcalc : calculateSlices fd =
        slicesFrom (totalBytesOf fd) 0 (-90) (chartItems fd) := by
      simp [calculateSlices, hlen0, ht]
    have hpw : List.Pairwise (fun a b : ℚ => b ≤ a)
        ((sortByBytesDesc (withBytes fd)).map (fun x => x.2)) :=
      (sortByBytesDesc_sorted (withBytes fd)).map _ (fun _ _ h => h)
    refine ⟨?_, ?_, ?_, ?_, ?_, ?_, ?_, ?_, ?_, ?_⟩
    · obtain ⟨x, xs, hx⟩ := List.exists_cons_of_ne_nil (chartItems_ne_nil fd hfd)
      rw [hcalc, hx]
      exact slicesFrom_start _ _ _ _ _
    · rw [hcalc, slicesFrom_span_sum, chartItems_sum, div_self ht, one_mul]
    · rw [hcalc]
      exact slicesFrom_chain _ _ _ _
    · rw [hcalc]
      exact slicesFrom_mem _ _ _ _
    · rw [hcalc, slicesFrom_map_color, slicesFrom_length]
      simp
    · rw [hcalc, slicesFrom_length]
      exact chartItems_length_le fd
    · rw [hcalc, slicesFrom_map_value, chartItems_sum]
    · rw [hcalc, slicesFrom_map_value]
      by_cases hob : 0 < othersBytesOf fd
      · have hd : (sortByBytesDesc (withBytes fd)).drop 9 ≠ [] := by
          intro hnil
          have hob2 : 0 <
              ((((sortByBytesDesc (withBytes fd)).drop 9)).map (fun x => x.2)).sum := hob
          rw [hnil] at hob2
          simp at hob2
        have hlen9 : (((sortByBytesDesc (withBytes fd)).take 9).map
            (fun x => x.2)).length = 9 := by
          have : ¬(sortByBytesDesc (withBytes fd)).length ≤ 9 := by
            intro hle
            exact hd (List.eq_nil_of_length_eq_zero (by
              rw [List.length_drop]
              omega))
          simp only [List.length_map, List.length_take]
          omega
        rw [chartItems_of_many fd hob, List.map_append, List.take_left' hlen9,
          List.map_take]
        exact (hpw.sublist (List.take_sublist 9 _)).chain'
      · rw [chartItems_of_zero_others fd hob, List.map_take, List.take_take]
        exact (hpw.sublist (List.take_sublist _ _)).chain'
    · intro h9 hob
      have hchart := chartItems_of_many fd hob
      have hlen9 : ((sortByBytesDesc (withBytes fd)).take 9).length = 9 := by
        simp only [List.length_take, sortByBytesDesc_length]
        omega
      have hmin : (9 : ℕ) ⊓ (sortByBytesDesc (withBytes fd)).length = 9 := by
        rw [sortByBytesDesc_length]
        omega
      refine ⟨?_, ?_, ?_⟩
      · rw [hcalc, slicesFrom_length, hchart]
        simp [hlen9]
      · rw [hcalc, slicesFrom_map_name, hchart, List.map_append,
          List.getElem?_append_right (by simp [hlen9])]
        simp [hlen9, othersEntry, hmin]
      · rw [hcalc, slicesFrom_map_value, hchart, List.map_append,
          List.getElem?_append_right (by simp [hlen9])]
        simp [hlen9, othersEntry, hmin]
    · intro hob
      rw [hcalc, slicesFrom_length, chartItems_of_zero_others fd hob,
        List.length_take, sortByBytesDesc_length]

/-- Twelve entries with distinct sizes summing to 1000 bytes. -/
def demo12 : List FileItem :=
  [{ id := "e01", name := "n01", size := "300 B", sizeBytes := 300, type := "file", path := "/r/n01" },
   { id := "e02", name := "n02", size := "200 B", sizeBytes := 200, type := "file", path := "/r/n02" },
   { id := "e03", name := "n03", size := "150 B", sizeBytes := 150, type := "file", path := "/r/n03" },
   { id := "e04", name := "n04", size := "100 B", sizeBytes := 100, type := "file", path := "/r/n04" },
   { id := "e05", name := "n05", size := "80 B", sizeBytes := 80, type := "file", path := "/r/n05" },
   { id := "e06", name := "n06", size := "60 B", sizeBytes := 60, type := "file", path := "/r/n06" },
   { id := "e07", name := "n07", size := "40 B", sizeBytes := 40, type := "file", path := "/r/n07" },
   { id := "e08", name := "n08", size := "30 B", sizeBytes := 30, type := "file", path := "/r/n08" },
   { id := "e09", name := "n09", size := "19 B", sizeBytes := 19, type := "file", path := "/r/n09" },
   { id := "e10", name := "n10", size := "10 B", sizeBytes := 10, type := "file", path := "/r/n10" },
   { id := "e11", name := "n11", size := "6 B", sizeBytes := 6, type := "file", path := "/r/n11" },
   { id := "e12", name := "n12", size := "5 B", sizeBytes := 5, type := "file", path := "/r/n12" }]

/-- `parseFloat` on a nonempty block of plain digits reads its decimal
value. -/
theorem jsParseFloat_digits (ds : List Char) (h1 : ds.takeWhile Char.isDigit = ds)
    (h2 : ds.isEmpty = false) :
    jsParseFloat ds = some ((readNat ds : ℚ)) := by
  rw [jsParseFloat, h1, List.drop_length]
  simp [h2]

/-- Evaluation helper: a size string that the regex splits into a digit block
and the unit `B` parses to its numeral. -/
theorem parseSizeToBytes_numB (s : String) (ds : List Char) (n : ℕ)
    (hm : matchNumUnit s.data = some (ds, "B"))
    (h1 : ds.takeWhile Char.isDigit = ds) (h2 : ds.isEmpty = false)
    (h3 : readNat ds = n) :
    parseSizeToBytes s = (n : ℚ) := by
  rw [parseSizeToBytes, hm]
  dsimp only
  rw [jsParseFloat_digits ds h1 h2, h3]
  simp [multiplier]

/-- `"300 B"` parses to 300 bytes. -/
theorem parse300 : parseSizeToBytes "300 B" = 300 :=
  parseSizeToBytes_numB _ ['3', '0', '0'] 300 (by decide) (by decide) (by decide) (by decide)

/-- `"200 B"` parses to 200 bytes. -/
theorem parse200 : parseSizeToBytes "200 B" = 200 :=
  parseSizeToBytes_numB _ ['2', '0', '0'] 200 (by decide) (by decide) (by decide) (by decide)

/-- `"150 B"` parses to 150 bytes. -/
theorem parse150 : parseSizeToBytes "150 B" = 150 :=
  parseSizeToBytes_numB _ ['1', '5', '0'] 150 (by decide) (by decide) (by decide) (by decide)

/-- `"100 B"` parses to 100 bytes. -/
theorem parse100 : parseSizeToBytes "100 B" = 100 :=
  parseSizeToBytes_numB _ ['1', '0', '0'] 100 (by decide) (by decide) (by decide) (by decide)

/-- `"80 B"` parses to 80 bytes. -/
theorem parse80 : parseSizeToBytes "80 B" = 80 :=
  parseSizeToBytes_numB _ ['8', '0'] 80 (by decide) (by decide) (by decide) (by decide)

/-- `"60 B"` parses to 60 bytes. -/
theorem parse60 : parseSizeToBytes "60 B" = 60 :=
  parseSizeToBytes_numB _ ['6', '0'] 60 (by decide) (by decide) (by decide) (by decide)

/-- `"40 B"` parses to 40 bytes. -/
theorem parse40 : parseSizeToBytes "40 B" = 40 :=
  parseSizeToBytes_numB _ ['4', '0'] 40 (by decide) (by decide) (by decide) (by decide)

/-- `"30 B"` parses to 30 bytes. -/
theorem parse30 : parseSizeToBytes "30 B" = 30 :=
  parseSizeToBytes_numB _ ['3', '0'] 30 (by decide) (by decide) (by decide) (by decide)

/-- `"19 B"` parses to 19 bytes. -/
theorem parse19 : parseSizeToBytes "19 B" = 19 :=
  parseSizeToBytes_numB _ ['1', '9'] 19 (by decide) (by decide) (by decide) (by decide)

/-- `"10 B"` parses to 10 bytes. -/
theorem parse10 : parseSizeToBytes "10 B" = 10 :=
  parseSizeToBytes_numB _ ['1', '0'] 10 (by decide) (by decide) (by decide) (by decide)

/-- `"6 B"` parses to 6 bytes. -/
theorem parse6 : parseSizeToBytes "6 B" = 6 :=
  parseSizeToBytes_numB _ ['6'] 6 (by decide) (by decide) (by decide) (by decide)

/-- `"5 B"` parses to 5 bytes. -/
theorem parse5 : parseSizeToBytes "5 B" = 5 :=
  parseSizeToBytes_numB _ ['5'] 5 (by decide) (by decide) (by decide) (by decide)

/-- The demo listing is already descending, so sorting leaves it in place. -/
theorem demo12_sorted : sortByBytesDesc (withBytes demo12) = withBytes demo12 := by
  norm_num [sortByBytesDesc, withBytes, demo12, bytesDescRel,
    parse300, parse200, parse150, parse100, parse80, parse60, parse40,
    parse30, parse19, parse10, parse6, parse5]

/-- The demo listing's total is 1000 bytes. -/
theorem demo12_total : totalBytesOf demo12 = 1000 := by
  norm_num [totalBytesOf, withBytes, demo12,
    parse300, parse200, parse150, parse100, parse80, parse60, parse40,
    parse30, parse19, parse10, parse6, parse5]

/-- The three smallest demo entries sum to 21 bytes. -/
theorem demo12_others : othersBytesOf demo12 = 21 := by
  rw [othersBytesOf, demo12_sorted]
  norm_num [withBytes, demo12, parse10, parse6, parse5]

/-- C5 witness: on the twelve-entry listing the aggregator yields exactly ten
slices, the tenth named `Others (3 items)` with value `21 = 10 + 6 + 5` (the
three smallest), the first slice starting at −90 and the spans summing to
exactly 360. -/
theorem calculateSlices_spec_witness :
    totalBytesOf demo12 = 1000 ∧
    ((calculateSlices demo12).map PieSlice.startAngle).head? = some (-90) ∧
    ((calculateSlices demo12).map
      (fun sl => sl.endAngle - sl.startAngle)).sum = 360 ∧
    (calculateSlices demo12).length = 10 ∧
    ((calculateSlices demo12).map PieSlice.name)[9]? = some "Others (3 items)" ∧
    ((calculateSlices demo12).map PieSlice.value)[9]? = some (10 + 6 + 5) := by
  have h := (calculateSlices_spec demo12 (by decide)).2
    (by rw [demo12_total]; norm_num)
  have h9 := h.2.2.2.2.2.2.2.2.1 (by decide) (by rw [demo12_others]; norm_num)
  refine ⟨demo12_total, h.1, h.2.1, h9.1, h9.2.1.trans (by decide),
    h9.2.2.trans ?_⟩
  rw [demo12_others]
  norm_num

/-! ## C6, C9: decimal rendering and the parse/format round trip -/

/-- Digit characters are digits. -/
theorem digitChar_isDigit (d : ℕ) (h : d < 10) : (digitChar d).isDigit = true := by
  interval_cases d <;> decide

/-- The numeric value of a digit character. -/
theorem digitChar_toNat (d : ℕ) (h : d < 10) : (digitChar d).toNat = 48 + d := by
  interval_cases d <;> decide

/-- Reading one more trailing digit multiplies by ten and adds it. -/
theorem readNat_append (xs : List Char) (c : Char) :
    readNat (xs ++ [c]) = 10 * readNat xs + (c.toNat - 48) := by
  simp [readNat, List.foldl_append]

/-- A leading zero character does not change the value read. -/
theorem readNat_cons_zero (cs : List Char) : readNat ('0' :: cs) = readNat cs := by
  simp [readNat]

/-- With enough fuel, the digit expansion is faithful: it is nonempty, all
digits, and reads back to the number. -/
theorem natCharsAux_spec :
    ∀ (fuel n : ℕ), n < 10 ^ (fuel + 1) →
      readNat (natCharsAux (fuel + 1) n) = n ∧ natCharsAux (fuel + 1) n ≠ [] ∧
      ∀ c ∈ natCharsAux (fuel + 1) n, c.isDigit = true
  | 0, n, h => by
    have hn : n < 10 := by simpa using h
    refine ⟨?_, by simp [natCharsAux, hn], ?_⟩
    · simp [natCharsAux, hn, readNat, digitChar_toNat n hn]
    · intro c hc
      simp [natCharsAux, hn] at hc
      subst hc
      exact digitChar_isDigit n hn
  | fuel + 1, n, h => by
    by_cases hn : n < 10
    · refine ⟨?_, by simp [natCharsAux, hn], ?_⟩
      · simp [natCharsAux, hn, readNat, digitChar_toNat n hn]
      · intro c hc
        simp [natCharsAux, hn] at hc
        subst hc
        exact digitChar_isDigit n hn
    · have hdiv : n / 10 < 10 ^ (fuel + 1) := by
        rw [Nat.div_lt_iff_lt_mul (by norm_num)]
        calc n < 10 ^ (fuel + 1 + 1) := h
        _ = 10 ^ (fuel + 1) * 10 := by ring
      have ih := natCharsAux_spec fuel (n / 10) hdiv
      have hmod : n % 10 < 10 := Nat.mod_lt n (by norm_num)
      constructor
      · rw [show natCharsAux (fuel + 1 + 1) n =
          natCharsAux (fuel + 1) (n / 10) ++ [digitChar (n % 10)] from by
            simp [natCharsAux, hn]]
        rw [readNat_append, ih.1, digitChar_toNat _ hmod]
        omega
      constructor
      · simp [natCharsAux, hn]
      · intro c hc
        rw [show natCharsAux (fuel + 1 + 1) n =
          natCharsAux (fuel + 1) (n / 10) ++ [digitChar (n % 10)] from by
            simp [natCharsAux, hn]] at hc
        rcases List.mem_append.mp hc with h' | h'
        · exact ih.2.2 c h'
        · simp at h'
          subst h'
          exact digitChar_isDigit _ hmod

/-- The decimal expansion of `n` is nonempty, all digits, and reads back to
`n`. -/
theorem natChars_spec (n : ℕ) :
    readNat (natChars n) = n ∧ natChars n ≠ [] ∧
    ∀ c ∈ natChars n, c.isDigit = true := by
  refine natCharsAux_spec n n ?_
  calc n < 10 ^ n := Nat.lt_pow_self (by norm_num) n
  _ ≤ 10 ^ (n + 1) := Nat.pow_le_pow_right (by norm_num) (Nat.le_succ n)

/-- A one-digit number prints as its single digit character. -/
theorem natChars_single (d : ℕ) (h : d < 10) : natChars d = [digitChar d] := by
  cases d with
  | zero => simp [natChars, natCharsAux]
  | succ k => simp [natChars, natCharsAux, h]

/-- Unfolding the digit expansion for a number of at least two digits. -/
theorem natCharsAux_big (fuel n : ℕ) (h10 : 10 ≤ n) :
    natCharsAux (fuel + 1) n = natCharsAux fuel (n / 10) ++ [digitChar (n % 10)] := by
  simp [natCharsAux, show ¬n < 10 by omega]

/-- Unfolding the digit expansion for a one-digit number. -/
theorem natCharsAux_small (fuel n : ℕ) (h : n < 10) :
    natCharsAux (fuel + 1) n = [digitChar n] := by
  simp [natCharsAux, h]

/-- A two-digit number prints as its two digit characters. -/
theorem natChars_two (d : ℕ) (h1 : 10 ≤ d) (h2 : d < 100) :
    natChars d = [digitChar (d / 10), digitChar (d % 10)] := by
  obtain ⟨f, rfl⟩ : ∃ f, d = f + 1 := ⟨d - 1, by omega⟩
  rw [natChars, natCharsAux_big (f + 1) (f + 1) h1,
    natCharsAux_small f ((f + 1) / 10) (by omega)]
  rfl

/-- `takeWhile` keeps a list all of whose elements satisfy the predicate. -/
theorem takeWhile_all {p : Char → Bool} :
    ∀ l : List Char, (∀ c ∈ l, p c = true) → l.takeWhile p = l
  | [], _ => rfl
  | c :: l, h => by
    have hc := h c (List.mem_cons_self c l)
    simp [List.takeWhile_cons, hc,
      takeWhile_all l (fun d hd => h d (List.mem_cons_of_mem c hd))]

/-- `takeWhile` over a satisfied block followed by a failing element stops
exactly at the block; `drop` past the block returns the tail. -/
theorem takeWhile_append_stop (p : Char → Bool) (xs : List Char) (y : Char)
    (t : List Char) (hxs : ∀ c ∈ xs, p c = true) (hy : p y = false) :
    (xs ++ y :: t).takeWhile p = xs ∧ (xs ++ y :: t).drop xs.length = y :: t := by
  constructor
  · induction xs with
    | nil => simp [List.takeWhile_cons, hy]
    | cons c cs ih =>
      have hc := hxs c (List.mem_cons_self c cs)
      simp [List.takeWhile_cons, hc,
        ih (fun d hd => hxs d (List.mem_cons_of_mem c hd))]
  · exact List.drop_left xs (y :: t)

/-- Reading a single digit character. -/
theorem readNat_single (d : ℕ) (h : d < 10) : readNat [digitChar d] = d := by
  simp [readNat, digitChar_toNat d h]

/-- Reading a pair of digit characters. -/
theorem readNat_pair (a b : ℕ) (ha : a < 10) (hb : b < 10) :
    readNat [digitChar a, digitChar b] = 10 * a + b := by
  simp [readNat, digitChar_toNat a ha, digitChar_toNat b hb]

/-- Every character of a rendered numeral is a digit or the decimal point. -/
theorem sizeNumeral_chars (m : ℕ) :
    ∀ c ∈ sizeNumeral m, (c.isDigit || c == '.') = true := by
  intro c hc
  rw [sizeNumeral] at hc
  have hI := (natChars_spec (m / 100)).2.2
  split_ifs at hc with h1 h2 h3
  · simp [hI c hc]
  · rcases List.mem_append.mp hc with h | h
    · simp [hI c h]
    · rcases List.mem_cons.mp h with rfl | h'
      · decide
      · simp [(natChars_spec (m % 100 / 10)).2.2 c h']
  · rcases List.mem_append.mp hc with h | h
    · simp [hI c h]
    · rcases List.mem_cons.mp h with rfl | h'
      · decide
      · rcases List.mem_cons.mp h' with rfl | h''
        · decide
        · simp [(natChars_spec (m % 100)).2.2 c h'']
  · rcases List.mem_append.mp hc with h | h
    · simp [hI c h]
    · rcases List.mem_cons.mp h with rfl | h'
      · decide
      · simp [(natChars_spec (m % 100)).2.2 c h']

/-- A rendered numeral is never empty. -/
theorem sizeNumeral_ne_nil (m : ℕ) : sizeNumeral m ≠ [] := by
  have hI := (natChars_spec (m / 100)).2.1
  rw [sizeNumeral]
  split_ifs <;> simp [hI]

/-- `parseFloat` reads a rendered numeral back to exactly `m / 100`: the
value that `toFixed(2)` displayed survives the trailing-zero stripping. -/
theorem jsParseFloat_sizeNumeral (m : ℕ) :
    jsParseFloat (sizeNumeral m) = some ((m : ℚ) / 100) := by
  have hI := natChars_spec (m / 100)
  rw [sizeNumeral]
  split_ifs with h1 h2 h3
  · rw [jsParseFloat, takeWhile_all _ hI.2.2, List.drop_length]
    simp [List.isEmpty_iff, hI.2.1, hI.1]
    rw [Nat.cast_div (Nat.dvd_of_mod_eq_zero h1) (by norm_num)]
    norm_num
  · have hq : m % 100 / 10 < 10 := by omega
    have hF := natChars_spec (m % 100 / 10)
    have hsplit := takeWhile_append_stop Char.isDigit (natChars (m / 100)) '.'
      (natChars (m % 100 / 10)) hI.2.2 (by decide)
    rw [jsParseFloat, hsplit.1, hsplit.2]
    dsimp only
    rw [takeWhile_all _ hF.2.2]
    simp [List.isEmpty_iff, hI.2.1, hI.1, hF.1, natChars_single _ hq,
      readNat_single _ hq]
    have hnat : m = 100 * (m / 100) + 10 * (m % 100 / 10) := by omega
    have hq2 : (m : ℚ) = 100 * ((m / 100 : ℕ) : ℚ) + 10 * ((m % 100 / 10 : ℕ) : ℚ) := by
      exact_mod_cast congrArg (fun k : ℕ => (k : ℚ)) hnat
    rw [hq2]
    ring
  · have hd : m % 100 < 10 := h3
    have hsplit := takeWhile_append_stop Char.isDigit (natChars (m / 100)) '.'
      ('0' :: natChars (m % 100)) hI.2.2 (by decide)
    rw [jsParseFloat, hsplit.1, hsplit.2]
    dsimp only
    rw [takeWhile_all _ (fun c hc => by
      rcases List.mem_cons.mp hc with rfl | hc'
      · decide
      · rw [natChars_single _ hd] at hc'
        rcases List.mem_singleton.mp hc' with rfl
        exact digitChar_isDigit _ hd)]
    simp [List.isEmpty_iff, hI.2.1, hI.1, natChars_single _ hd,
      readNat_cons_zero, readNat_single _ hd]
    have hnat : m = 100 * (m / 100) + m % 100 := by omega
    have hq2 : (m : ℚ) = 100 * ((m / 100 : ℕ) : ℚ) + ((m % 100 : ℕ) : ℚ) := by
      exact_mod_cast congrArg (fun k : ℕ => (k : ℚ)) hnat
    rw [hq2]
    ring
  · have hd1 : 10 ≤ m % 100 := by omega
    have hd2 : m % 100 < 100 := Nat.mod_lt m (by norm_num)
    have hF := natChars_spec (m % 100)
    have hsplit := takeWhile_append_stop Char.isDigit (natChars (m / 100)) '.'
      (natChars (m % 100)) hI.2.2 (by decide)
    rw [jsParseFloat, hsplit.1, hsplit.2]
    dsimp only
    rw [takeWhile_all _ hF.2.2]
    simp [List.isEmpty_iff, hI.2.1, hI.1, hF.1, natChars_two _ hd1 hd2,
      readNat_pair _ _ (by omega : m % 100 / 10 < 10) (by omega : m % 100 % 10 < 10),
      show 10 * (m % 100 / 10) + m % 100 % 10 = m % 100 from by omega]
    have hnat : m = 100 * (m / 100) + m % 100 := by omega
    have hq2 : (m : ℚ) = 100 * ((m / 100 : ℕ) : ℚ) + ((m % 100 : ℕ) : ℚ) := by
      exact_mod_cast congrArg (fun k : ℕ => (k : ℚ)) hnat
    rw [hq2]
    ring

/-- The unit token after the blank survives whitespace-stripping and
uppercasing unchanged. -/
theorem unit_clean (u : String)
    (hu : u = "B" ∨ u = "KB" ∨ u = "MB" ∨ u = "GB" ∨ u = "TB") :
    String.mk (((' ' :: u.data).dropWhile Char.isWhitespace).map Char.toUpper) = u := by
  rcases hu with rfl | rfl | rfl | rfl | rfl <;> decide

/-- The regex splits `numeral ++ ' ' ++ unit` into the numeral block and the
unit. -/
theorem matchNumUnit_numeral (cs : List Char) (hne : cs ≠ [])
    (hdig : ∀ c ∈ cs, (c.isDigit || c == '.') = true) (u : String)
    (hu : u = "B" ∨ u = "KB" ∨ u = "MB" ∨ u = "GB" ∨ u = "TB") :
    matchNumUnit (cs ++ ' ' :: u.data) = some (cs, u) := by
  have hsplit := takeWhile_append_stop (fun c => c.isDigit || c == '.') cs ' '
    u.data hdig (by decide)
  rw [matchNumUnit, hsplit.1]
  dsimp only
  rw [hsplit.2, unit_clean u hu]
  simp [List.isEmpty_iff, hne, hu]

/-- Parsing the output shape of `formatBytes`: the numeral re-reads as
`m / 100` and the unit contributes its multiplier. -/
theorem parseSizeToBytes_format (m : ℕ) (u : String)
    (hu : u = "B" ∨ u = "KB" ∨ u = "MB" ∨ u = "GB" ∨ u = "TB") :
    parseSizeToBytes (String.mk (sizeNumeral m) ++ " " ++ u) =
      (m : ℚ) / 100 * multiplier u := by
  have hdata : (String.mk (sizeNumeral m) ++ " " ++ u).data =
      sizeNumeral m ++ ' ' :: u.data := by
    simp [String.data_append]
  rw [parseSizeToBytes, hdata,
    matchNumUnit_numeral _ (sizeNumeral_ne_nil m) (sizeNumeral_chars m) u hu]
  dsimp only
  rw [jsParseFloat_sizeNumeral m]
  rfl

/-- On natural byte counts the chosen unit index is the base-1024 logarithm. -/
theorem unitIndex_natCast (n : ℕ) :
    unitIndex (n : ℚ) = (Nat.log 1024 n : ℤ) := by
  rw [unitIndex, Int.log_natCast]

/-- The rounded-hundredths integer on a natural byte count is
`(200 n + K) / (2 K)` for `K = 1024 ^ log n` — floor of `100 n / K + 1/2`. -/
theorem roundedHundredths_eq (n : ℕ) (_h1 : 0 < n) :
    roundedHundredths (n : ℚ) =
      ((200 * n + 1024 ^ Nat.log 1024 n) / (2 * 1024 ^ Nat.log 1024 n) : ℕ) := by
  have hK : (0 : ℚ) < ((1024 ^ Nat.log 1024 n : ℕ) : ℚ) := by positivity
  rw [roundedHundredths, unitIndex_natCast]
  have hz : (1024 : ℚ) ^ ((Nat.log 1024 n : ℕ) : ℤ) =
      ((1024 ^ Nat.log 1024 n : ℕ) : ℚ) := by
    rw [zpow_natCast]
    push_cast
    ring
  rw [hz]
  have hx : (n : ℚ) / ((1024 ^ Nat.log 1024 n : ℕ) : ℚ) * 100 + 1 / 2 =
      ((200 * n + 1024 ^ Nat.log 1024 n : ℕ) : ℚ) /
        ((2 * 1024 ^ Nat.log 1024 n : ℕ) : ℚ) := by
    push_cast
    field_simp
    ring
  rw [hx]
  have hpos : 0 < 2 * 1024 ^ Nat.log 1024 n := by positivity
  have hdm := Nat.div_add_mod (200 * n + 1024 ^ Nat.log 1024 n)
    (2 * 1024 ^ Nat.log 1024 n)
  have hmod := Nat.mod_lt (200 * n + 1024 ^ Nat.log 1024 n) hpos
  rw [Int.floor_eq_iff]
  constructor
  · rw [le_div_iff₀ (by positivity)]
    have hle := Nat.div_mul_le_self (200 * n + 1024 ^ Nat.log 1024 n)
      (2 * 1024 ^ Nat.log 1024 n)
    exact_mod_cast hle
  · rw [div_lt_iff₀ (by positivity)]
    have hlt : 200 * n + 1024 ^ Nat.log 1024 n <
        ((200 * n + 1024 ^ Nat.log 1024 n) / (2 * 1024 ^ Nat.log 1024 n) + 1) *
          (2 * 1024 ^ Nat.log 1024 n) := by
      nlinarith [hdm, hmod]
    exact_mod_cast hlt

/-- `formatBytes` on a positive natural byte count below `1024^5` is the
trimmed rendering of the rounded hundredths followed by the unit selected by
the base-1024 logarithm. -/
theorem formatBytes_natCast (n : ℕ) (h1 : 0 < n) (h2 : n < 1024 ^ 5) :
    formatBytes (n : ℚ) =
      String.mk (sizeNumeral ((200 * n + 1024 ^ Nat.log 1024 n) /
        (2 * 1024 ^ Nat.log 1024 n))) ++ " " ++
      unitsList.getD (Nat.log 1024 n) "undefined" := by
  have hne : (n : ℚ) ≠ 0 := Nat.cast_ne_zero.mpr h1.ne'
  have hlog : Nat.log 1024 n < 5 :=
    (Nat.lt_pow_iff_log_lt (by norm_num) h1.ne').mp h2
  rw [formatBytes, if_neg hne, roundedHundredths_eq n h1, Int.toNat_natCast,
    unitIndex_natCast, unitName]
  rw [if_pos ⟨by positivity, by exact_mod_cast hlog⟩, Int.toNat_natCast]

/-- The rounding step loses at most half a hundredth of the chosen unit. -/
theorem rounded_abs_bound (n : ℕ) :
    |(((200 * n + 1024 ^ Nat.log 1024 n) / (2 * 1024 ^ Nat.log 1024 n) : ℕ) : ℚ) / 100 -
      (n : ℚ) / ((1024 ^ Nat.log 1024 n : ℕ) : ℚ)| ≤ 1 / 200 := by
  set K := 1024 ^ Nat.log 1024 n with hK
  have hKpos : 0 < K := by positivity
  have hdm := Nat.div_add_mod (200 * n + K) (2 * K)
  have hmod := Nat.mod_lt (200 * n + K) (show 0 < 2 * K by positivity)
  set M := (200 * n + K) / (2 * K) with hM
  set R := (200 * n + K) % (2 * K) with hR
  have hdmQ : 2 * (K : ℚ) * (M : ℚ) + (R : ℚ) = 200 * (n : ℚ) + (K : ℚ) := by
    exact_mod_cast hdm
  have hmodQ : (R : ℚ) < 2 * (K : ℚ) := by exact_mod_cast hmod
  have hR0 : (0 : ℚ) ≤ (R : ℚ) := Nat.cast_nonneg R
  have hKQ : (0 : ℚ) < (K : ℚ) := by exact_mod_cast hKpos
  have hg : (M : ℚ) / 100 - (n : ℚ) / (K : ℚ) =
      (2 * (K : ℚ) * (M : ℚ) - 200 * (n : ℚ)) / (200 * (K : ℚ)) := by
    field_simp
    ring
  rw [hg, abs_div,
    show |200 * (K : ℚ)| = 200 * (K : ℚ) from abs_of_pos (by positivity)]
  rw [div_le_iff₀ (by positivity)]
  have h200 : (1 : ℚ) / 200 * (200 * (K : ℚ)) = (K : ℚ) := by
    field_simp
  rw [h200, abs_le]
  constructor
  · linarith [hdmQ, hmodQ]
  · linarith [hdmQ, hR0]

/-- Each reachable unit index names one of the five units, whose parse
multiplier is exactly `1024 ^ index`. -/
theorem unit_and_multiplier (j : ℕ) (hj : j < 5) :
    (unitsList.getD j "undefined" = "B" ∨ unitsList.getD j "undefined" = "KB" ∨
     unitsList.getD j "undefined" = "MB" ∨ unitsList.getD j "undefined" = "GB" ∨
     unitsList.getD j "undefined" = "TB") ∧
    multiplier (unitsList.getD j "undefined") = ((1024 ^ j : ℕ) : ℚ) := by
  interval_cases j <;>
    exact ⟨by decide, by simp [unitsList, multiplier] <;> norm_num⟩

/-- `Nat.log 1024 1024 = 1`. -/
theorem natLog_1024_1024 : Nat.log 1024 1024 = 1 :=
  Nat.log_eq_of_pow_le_of_lt_pow (by norm_num) (by norm_num)

/-- `Nat.log 1024 1536 = 1`. -/
theorem natLog_1024_1536 : Nat.log 1024 1536 = 1 :=
  Nat.log_eq_of_pow_le_of_lt_pow (by norm_num) (by norm_num)

/-- `formatBytes 0 = "0 B"`. -/
theorem formatBytes_eval_zero : formatBytes 0 = "0 B" := by
  simp [formatBytes]

/-- `formatBytes 1024 = "1 KB"` — the trailing zeros of `toFixed(2)` are
stripped by `parseFloat`. -/
theorem formatBytes_eval_1024 : formatBytes 1024 = "1 KB" := by
  rw [show (1024 : ℚ) = ((1024 : ℕ) : ℚ) from by norm_num,
    formatBytes_natCast 1024 (by norm_num) (by norm_num), natLog_1024_1024]
  decide

/-- `formatBytes 1536 = "1.5 KB"`. -/
theorem formatBytes_eval_1536 : formatBytes 1536 = "1.5 KB" := by
  rw [show (1536 : ℚ) = ((1536 : ℕ) : ℚ) from by norm_num,
    formatBytes_natCast 1536 (by norm_num) (by norm_num), natLog_1024_1536]
  decide

/-- C6 counterexample: `formatBytes` does not render two decimal digits —
`parseFloat` strips the trailing zeros that `toFixed(2)` produced, so
`formatBytes(1024)` is `"1 KB"`, not `"1.00 KB"`, and `formatBytes(1536)` is
`"1.5 KB"`, not `"1.50 KB"`. -/
theorem formatBytes_strips_trailing_zeros :
    formatBytes 1024 = "1 KB" ∧ ¬formatBytes 1024 = "1.00 KB" ∧
    formatBytes 1536 = "1.5 KB" ∧ ¬formatBytes 1536 = "1.50 KB" := by
  refine ⟨formatBytes_eval_1024, ?_, formatBytes_eval_1536, ?_⟩
  · rw [formatBytes_eval_1024]
    decide
  · rw [formatBytes_eval_1536]
    decide

/-- C6 amended: `formatBytes` scales by base 1024 and selects the largest
unit whose scaled value is at least 1 (`1024^i ≤ n < 1024^(i+1)` for the
chosen index `i`), renders the value rounded to hundredths — within `1/200`
of the exact scaled value — but with at most two decimal digits (trailing
zeros stripped), and `formatBytes 0 = "0 B"`, `formatBytes 1024 = "1 KB"`,
`formatBytes 1536 = "1.5 KB"`. -/
theorem formatBytes_amended (n : ℕ) (h1 : 0 < n) (h2 : n < 1024 ^ 5) :
    1024 ^ Nat.log 1024 n ≤ n ∧
    n < 1024 ^ (Nat.log 1024 n + 1) ∧
    formatBytes (n : ℚ) =
      String.mk (sizeNumeral ((200 * n + 1024 ^ Nat.log 1024 n) /
        (2 * 1024 ^ Nat.log 1024 n))) ++ " " ++
      unitsList.getD (Nat.log 1024 n) "undefined" ∧
    |(((200 * n + 1024 ^ Nat.log 1024 n) / (2 * 1024 ^ Nat.log 1024 n) : ℕ) : ℚ) / 100 -
      (n : ℚ) / ((1024 ^ Nat.log 1024 n : ℕ) : ℚ)| ≤ 1 / 200 ∧
    formatBytes 0 = "0 B" ∧ formatBytes 1024 = "1 KB" ∧
    formatBytes 1536 = "1.5 KB" :=
  ⟨Nat.pow_log_le_self 1024 h1.ne', Nat.lt_pow_succ_log_self (by norm_num) n,
   formatBytes_natCast n h1 h2, rounded_abs_bound n,
   formatBytes_eval_zero, formatBytes_eval_1024, formatBytes_eval_1536⟩

/-- C6 witness: the amended theorem applied at 1536 — the unit bounds
`1024 ≤ 1536 < 1024²` hold and the rendering is `"1.5 KB"`. -/
theorem formatBytes_amended_witness :
    1024 ^ Nat.log 1024 1536 ≤ 1536 ∧ formatBytes 1536 = "1.5 KB" ∧
    formatBytes 0 = "0 B" ∧ formatBytes 1024 = "1 KB" := by
  have h := formatBytes_amended 1536 (by norm_num) (by norm_num)
  exact ⟨h.1, h.2.2.2.2.2.2, h.2.2.2.2.1, h.2.2.2.2.2.1⟩

/-- C9: the round trip `parseSize ∘ formatBytes` returns the original byte
count up to the half-hundredth-of-a-unit error of the 2-decimal rounding,
and exactly when the byte count is a multiple of the chosen unit's
granularity (`1024^i / 100`, i.e. when `1024^i` divides `100·n`). -/
theorem parseSize_formatBytes_roundTrip (n : ℕ) (h1 : 0 < n)
    (h2 : n < 1024 ^ 5) :
    |parseSizeToBytes (formatBytes (n : ℚ)) - (n : ℚ)| ≤
      ((1024 ^ Nat.log 1024 n : ℕ) : ℚ) / 200 ∧
    (1024 ^ Nat.log 1024 n ∣ 100 * n →
      parseSizeToBytes (formatBytes (n : ℚ)) = (n : ℚ)) := by
  have hlog : Nat.log 1024 n < 5 :=
    (Nat.lt_pow_iff_log_lt (by norm_num) h1.ne').mp h2
  obtain ⟨huu, hmul⟩ := unit_and_multiplier (Nat.log 1024 n) hlog
  have hparse : parseSizeToBytes (formatBytes (n : ℚ)) =
      (((200 * n + 1024 ^ Nat.log 1024 n) / (2 * 1024 ^ Nat.log 1024 n) : ℕ) : ℚ) /
        100 * ((1024 ^ Nat.log 1024 n : ℕ) : ℚ) := by
    rw [formatBytes_natCast n h1 h2, parseSizeToBytes_format _ _ huu, hmul]
  have hKQ : (0 : ℚ) < ((1024 ^ Nat.log 1024 n : ℕ) : ℚ) := by positivity
  constructor
  · rw [hparse]
    have hfac :
        (((200 * n + 1024 ^ Nat.log 1024 n) / (2 * 1024 ^ Nat.log 1024 n) : ℕ) : ℚ) /
          100 * ((1024 ^ Nat.log 1024 n : ℕ) : ℚ) - (n : ℚ) =
        ((1024 ^ Nat.log 1024 n : ℕ) : ℚ) *
          ((((200 * n + 1024 ^ Nat.log 1024 n) / (2 * 1024 ^ Nat.log 1024 n) : ℕ) : ℚ) /
            100 - (n : ℚ) / ((1024 ^ Nat.log 1024 n : ℕ) : ℚ)) := by
      field_simp
      ring
    rw [hfac, abs_mul, abs_of_pos hKQ]
    calc ((1024 ^ Nat.log 1024 n : ℕ) : ℚ) *
        |(((200 * n + 1024 ^ Nat.log 1024 n) / (2 * 1024 ^ Nat.log 1024 n) : ℕ) : ℚ) /
          100 - (n : ℚ) / ((1024 ^ Nat.log 1024 n : ℕ) : ℚ)| ≤
        ((1024 ^ Nat.log 1024 n : ℕ) : ℚ) * (1 / 200) :=
          mul_le_mul_of_nonneg_left (rounded_abs_bound n) hKQ.le
      _ = ((1024 ^ Nat.log 1024 n : ℕ) : ℚ) / 200 := by ring
  · intro hdvd
    obtain ⟨t, ht⟩ := hdvd
    have hsum : 200 * n + 1024 ^ Nat.log 1024 n =
        1024 ^ Nat.log 1024 n * (2 * t + 1) := by
      calc 200 * n + 1024 ^ Nat.log 1024 n =
          2 * (100 * n) + 1024 ^ Nat.log 1024 n := by ring
        _ = 2 * (1024 ^ Nat.log 1024 n * t) + 1024 ^ Nat.log 1024 n := by rw [ht]
        _ = 1024 ^ Nat.log 1024 n * (2 * t + 1) := by ring
    have hM : (200 * n + 1024 ^ Nat.log 1024 n) / (2 * 1024 ^ Nat.log 1024 n) = t := by
      rw [hsum, show 2 * 1024 ^ Nat.log 1024 n = 1024 ^ Nat.log 1024 n * 2 from by ring,
        Nat.mul_div_mul_left _ _ (by positivity)]
      omega
    rw [hparse, hM]
    have htQ : 100 * (n : ℚ) = ((1024 ^ Nat.log 1024 n : ℕ) : ℚ) * (t : ℚ) := by
      exact_mod_cast ht
    field_simp
    push_cast at htQ
    linarith [htQ]

/-- C9 witness: at 1536 bytes the granularity condition holds
(`1024 ∣ 153600`) and the round trip is exact: parsing `"1.5 KB"` returns
1536. -/
theorem parseSize_formatBytes_roundTrip_witness :
    1024 ^ Nat.log 1024 1536 ∣ 100 * 1536 ∧
    parseSizeToBytes (formatBytes ((1536 : ℕ) : ℚ)) = ((1536 : ℕ) : ℚ) := by
  have hdvd : 1024 ^ Nat.log 1024 1536 ∣ 100 * 1536 := by
    rw [natLog_1024_1536]
    exact ⟨150, by norm_num⟩
  exact ⟨hdvd,
    (parseSize_formatBytes_roundTrip 1536 (by norm_num) (by norm_num)).2 hdvd⟩
